import Mathlib

/-!
Shallow embedding of the domain core of the musician-gear-tracker backend:
the `InsurancePolicy` model (src/backend/src/models/InsurancePolicy.js) and
the `Band` membership model (src/backend/src/models/Band.js).

Dates are modelled as `Int` millisecond timestamps (JavaScript `Date`
comparison and subtraction operate on the millisecond value).  Mongoose
ObjectIds are modelled as `Nat` (the code only ever compares their string
forms for equality).
-/

namespace GearTracker

/-- Equipment as seen by the policy engine: only `currentValue` is read
(`InsurancePolicy.js` line 149).  The field is optional in the schema, and the
code guards with `item.currentValue || 0`. -/
structure Equipment where
  currentValue : Option Int
  deriving Repr, DecidableEq

/-- The fields of the `insurancePolicySchema` that the lifecycle methods read:
the `isActive` flag, `startDate`, `endDate`, and the `coveredItems`
references. -/
structure InsurancePolicy where
  isActive : Bool
  startDate : Int
  endDate : Int
  coveredItems : List Nat
  deriving Repr, DecidableEq

/-- Milliseconds per day, the `1000 * 60 * 60 * 24` of
`InsurancePolicy.js` line 129. -/
def msPerDay : Nat := 1000 * 60 * 60 * 24

/-- The `status` virtual (`InsurancePolicy.js` lines 101-117): `Inactive` when
the `isActive` flag is false, else `Expired` when `endDate < now`, else
`Future` when `startDate > now`, else `Active`. -/
def status (p : InsurancePolicy) (now : Int) : String :=
  if p.isActive = false then "Inactive"
  else if p.endDate < now then "Expired"
  else if p.startDate > now then "Future"
  else "Active"

/-- The `daysRemaining` virtual (`InsurancePolicy.js` lines 120-130): 0 when
`endDate < now`, otherwise `Math.ceil(Math.abs(endDate - now) / msPerDay)`.
`Math.abs` on the integer difference is `Int.natAbs`, and `Math.ceil` of the
nonnegative integer ratio `n / D` is `(n + (D - 1)) / D` in `Nat` division. -/
def daysRemaining (p : InsurancePolicy) (now : Int) : Int :=
  if p.endDate < now then 0
  else (((p.endDate - now).natAbs + (msPerDay - 1)) / msPerDay : Nat)

/-- The `isExpiringSoon` method (`InsurancePolicy.js` lines 133-136):
`daysRemaining > 0 && daysRemaining <= 30`. -/
def isExpiringSoon (p : InsurancePolicy) (now : Int) : Bool :=
  decide (daysRemaining p now > 0) && decide (daysRemaining p now ≤ 30)

/-- The `getTotalCoverageValue` method (`InsurancePolicy.js` lines 145-151).
It populates `coveredItems` and reduces with `total + (item.currentValue || 0)`
from 0.  Mongoose `populate` on an array of refs drops entries whose referenced
document does not resolve, which the supplied resolver models via `Option`:
unresolved entries are filtered out before the fold. -/
def getTotalCoverageValue (p : InsurancePolicy) (resolve : Nat → Option Equipment) : Int :=
  (p.coveredItems.filterMap resolve).foldl (fun total item => total + item.currentValue.getD 0) 0

/-- A `memberSchema` record (`Band.js` lines 5-35): user reference, role,
permission tags, join timestamp (`dateJoined`) and the soft-delete `isActive`
flag. -/
structure Member where
  userId : Nat
  role : String
  permissions : List String
  dateJoined : Int
  isActive : Bool
  deriving Repr, DecidableEq

/-- The input to `addMember`.  It must carry a user reference; `role` and
`permissions` may be absent (a JavaScript falsy/undefined field is `none`). -/
structure MemberData where
  userId : Nat
  role : Option String
  permissions : Option (List String)
  deriving Repr, DecidableEq

/-- The fields of `bandSchema` (`Band.js` lines 38-99) that the membership
methods touch: only `members`; `name` stands in for the untouched rest of the
aggregate. -/
structure Band where
  name : String
  members : List Member
  deriving Repr, DecidableEq

/-- Casting `memberData` through `memberSchema` when it is pushed as a new
record (`Band.js` lines 5-35, used at line 148).  `dateJoined` defaults to
`Date.now` and `isActive` to `true`.  The `default: ['view']` written inside
the permissions array's element definition (`Band.js` lines 16-26) is inert
in Mongoose — a default is only honoured at the array path level — so an
omitted permission set becomes the implicit array default `[]`.  `role` is
required, so an absent role is the empty string only nominally. -/
def castMember (d : MemberData) (now : Int) : Member :=
  { userId := d.userId
    role := d.role.getD ""
    permissions := d.permissions.getD []
    dateJoined := now
    isActive := true }

/-- `findIndex` followed by in-place mutation of the found element, as done by
`addMember` and `removeMember`: rewrite the first element satisfying `p` with
`f`, leaving the list unchanged when none matches. -/
def updateFirst (p : α → Bool) (f : α → α) : List α → List α
  | [] => []
  | x :: xs => if p x then f x :: xs else x :: updateFirst p f xs

/-- The update applied by `addMember` to an existing record (`Band.js` lines
142-145): `role = memberData.role || existing.role`,
`permissions = memberData.permissions || existing.permissions`,
`isActive = true`; `userId` and `dateJoined` are not assigned. -/
def applyMemberData (d : MemberData) (m : Member) : Member :=
  { m with role := d.role.getD m.role
           permissions := d.permissions.getD m.permissions
           isActive := true }

/-- The `addMember` method (`Band.js` lines 135-152): `findIndex` on
`userId` equality (ignoring `isActive`); when found, update role/permissions
in place and force `isActive = true`; otherwise push the cast `memberData`. -/
def addMember (b : Band) (d : MemberData) (now : Int) : Band :=
  if b.members.any (fun m => m.userId == d.userId) then
    { b with members := updateFirst (fun m => m.userId == d.userId) (applyMemberData d) b.members }
  else
    { b with members := b.members ++ [castMember d now] }

/-- The `removeMember` method (`Band.js` lines 155-166): `findIndex` on
`userId` equality (ignoring `isActive`); when found, set `isActive = false`;
when not found, return the aggregate unchanged — exactly `updateFirst`. -/
def removeMember (b : Band) (userId : Nat) : Band :=
  { b with members :=
      updateFirst (fun m => m.userId == userId) (fun m => { m with isActive := false }) b.members }

/-- The `isMember` method (`Band.js` lines 114-118): some member with matching
`userId` and `isActive`. -/
def isMember (b : Band) (userId : Nat) : Bool :=
  b.members.any (fun m => m.userId == userId && m.isActive)

/-- The `hasPermission` method (`Band.js` lines 121-132): find the active
member record; `false` when none; `true` when its permissions contain
`admin`; else membership of the requested tag. -/
def hasPermission (b : Band) (userId : Nat) (permission : String) : Bool :=
  match b.members.find? (fun m => m.userId == userId && m.isActive) with
  | none => false
  | some m => m.permissions.contains "admin" || m.permissions.contains permission

/-- Bands reachable from a freshly created aggregate (empty member list) by
`addMember` / `removeMember`. -/
inductive Reachable : Band → Prop where
  | init (b : Band) : b.members = [] → Reachable b
  | add (b : Band) (d : MemberData) (now : Int) : Reachable b → Reachable (addMember b d now)
  | remove (b : Band) (u : Nat) : Reachable b → Reachable (removeMember b u)

/-! ## Helper lemmas about updateFirst -/

theorem updateFirst_append (p : α → Bool) (f : α → α) (l1 l2 : List α) (m : α)
    (h1 : ∀ x ∈ l1, p x = false) (hm : p m = true) :
    updateFirst p f (l1 ++ m :: l2) = l1 ++ f m :: l2 := by
  induction l1 with
  | nil => simp [updateFirst, hm]
  | cons x xs ih =>
    simp [updateFirst, h1 x (by simp), ih (fun y hy => h1 y (by simp [hy]))]

theorem updateFirst_eq_self (p : α → Bool) (f : α → α) (l : List α)
    (h : ∀ x ∈ l, p x = true → f x = x) :
    updateFirst p f l = l := by
  induction l with
  | nil => rfl
  | cons x xs ih =>
    by_cases hx : p x = true
    · simp [updateFirst, hx, h x (by simp) hx]
    · simp [updateFirst, hx, ih (fun y hy hp => h y (by simp [hy]) hp)]

theorem updateFirst_length (p : α → Bool) (f : α → α) (l : List α) :
    (updateFirst p f l).length = l.length := by
  induction l with
  | nil => rfl
  | cons x xs ih => by_cases hx : p x = true <;> simp [updateFirst, hx, ih]

theorem updateFirst_any (p : α → Bool) (f : α → α) (q : α → Bool)
    (hq : ∀ x, q (f x) = q x) (l : List α) :
    (updateFirst p f l).any q = l.any q := by
  induction l with
  | nil => rfl
  | cons x xs ih => by_cases hx : p x = true <;> simp [updateFirst, hx, hq, ih]

theorem countP_updateFirst (p : α → Bool) (f : α → α) (q : α → Bool)
    (hq : ∀ x, q (f x) = q x) (l : List α) :
    (updateFirst p f l).countP q = l.countP q := by
  induction l with
  | nil => rfl
  | cons x xs ih => by_cases hx : p x = true <;> simp [updateFirst, hx, List.countP_cons, hq, ih]

theorem updateFirst_idem (p : α → Bool) (f : α → α)
    (hp : ∀ x, p (f x) = p x) (hf : ∀ x, f (f x) = f x) (l : List α) :
    updateFirst p f (updateFirst p f l) = updateFirst p f l := by
  induction l with
  | nil => rfl
  | cons x xs ih =>
    by_cases hx : p x = true
    · simp [updateFirst, hx, hp, hf]
    · simp [updateFirst, hx, ih]

theorem find?_first (p : α → Bool) (l1 l2 : List α) (m : α)
    (h1 : ∀ x ∈ l1, p x = false) (hm : p m = true) :
    List.find? p (l1 ++ m :: l2) = some m := by
  induction l1 with
  | nil => simp [List.find?, hm]
  | cons x xs ih =>
    simp [List.find?, h1 x (by simp), ih (fun y hy => h1 y (by simp [hy]))]

theorem Band.eq_of_members (b1 b2 : Band) (hn : b1.name = b2.name)
    (hm : b1.members = b2.members) : b1 = b2 := by
  cases b1; cases b2; simp_all

theorem addMember_name (b : Band) (d : MemberData) (now : Int) :
    (addMember b d now).name = b.name := by
  rw [addMember]; split <;> rfl

theorem addMember_members (b : Band) (d : MemberData) (now : Int) :
    (addMember b d now).members = if b.members.any (fun m => m.userId == d.userId) then updateFirst (fun m => m.userId == d.userId) (applyMemberData d) b.members else b.members ++ [castMember d now] := by
  rw [addMember]; split <;> rfl

theorem applyMemberData_idem (d : MemberData) (m : Member) :
    applyMemberData d (applyMemberData d m) = applyMemberData d m := by
  rcases d with ⟨u, r, pe⟩
  cases r <;> cases pe <;> rfl

theorem applyMemberData_castMember (d : MemberData) (now : Int) :
    applyMemberData d (castMember d now) = castMember d now := by
  rcases d with ⟨u, r, pe⟩
  cases r <;> cases pe <;> rfl

/-! ## Policy lifecycle theorems -/

/-- C1: for every policy and evaluation time `now`, the derived status is
`Inactive` if the active flag is false (regardless of the dates); otherwise
`Expired` if `endDate < now`; otherwise `Future` if `startDate > now`;
otherwise `Active`. -/
theorem status_cases (p : InsurancePolicy) (now : Int) :
    (p.isActive = false → status p now = "Inactive") ∧
    (p.isActive = true → p.endDate < now → status p now = "Expired") ∧
    (p.isActive = true → ¬ p.endDate < now → p.startDate > now → status p now = "Future") ∧
    (p.isActive = true → ¬ p.endDate < now → ¬ p.startDate > now → status p now = "Active") := by
  refine ⟨fun h => ?_, fun h h2 => ?_, fun h h2 h3 => ?_, fun h h2 h3 => ?_⟩ <;>
    simp [status, *]

/-- Witness for C1 at a concrete inactive policy. -/
theorem status_cases_witness :
    status ⟨false, 0, 10, []⟩ 5 = "Inactive" :=
  (status_cases ⟨false, 0, 10, []⟩ 5).1 rfl

/-- C2: `isExpiringSoon` is true iff `0 < daysRemaining ≤ 30`: true at exactly
30 days remaining, false at 0 and at 31. -/
theorem isExpiringSoon_boundary (p : InsurancePolicy) (now : Int) :
    (isExpiringSoon p now = true ↔ 0 < daysRemaining p now ∧ daysRemaining p now ≤ 30) ∧
    (daysRemaining p now = 30 → isExpiringSoon p now = true) ∧
    (daysRemaining p now = 0 → isExpiringSoon p now = false) ∧
    (daysRemaining p now = 31 → isExpiringSoon p now = false) := by
  refine ⟨?_, fun h => ?_, fun h => ?_, fun h => ?_⟩ <;>
    simp [isExpiringSoon, *]

/-- Witness for C2: a policy with exactly 30 days remaining is expiring soon. -/
theorem isExpiringSoon_boundary_witness :
    isExpiringSoon ⟨true, 0, 2592000000, []⟩ 0 = true :=
  (isExpiringSoon_boundary ⟨true, 0, 2592000000, []⟩ 0).2.1 (by decide)

/-- C3: `daysRemaining` is never negative, is 0 once `endDate < now`, equals
the ceiling of `(endDate - now) / msPerDay` otherwise (stated by the
two-sided ceiling bounds), and is monotonically non-increasing as `now`
advances. -/
theorem daysRemaining_props (p : InsurancePolicy) (now now1 now2 : Int) :
    0 ≤ daysRemaining p now ∧
    (p.endDate < now → daysRemaining p now = 0) ∧
    (¬ p.endDate < now →
      (daysRemaining p now - 1) * (msPerDay : Int) < p.endDate - now ∧
      p.endDate - now ≤ daysRemaining p now * (msPerDay : Int)) ∧
    (now1 ≤ now2 → daysRemaining p now2 ≤ daysRemaining p now1) := by
  have core : ∀ t : Int, ¬ p.endDate < t →
      daysRemaining p t = (((p.endDate - t).natAbs + (msPerDay - 1)) / msPerDay : Nat) := by
    intro t ht
    simp [daysRemaining, ht]
  refine ⟨?_, fun h => ?_, fun h => ?_, fun h12 => ?_⟩
  · unfold daysRemaining
    split
    · exact le_refl 0
    · exact Int.natCast_nonneg _
  · simp [daysRemaining, h]
  · rw [core now h]
    have hcast : ((p.endDate - now).natAbs : Int) = p.endDate - now := by omega
    rw [← hcast]
    simp only [msPerDay]
    norm_num
    omega
  · by_cases h1 : p.endDate < now1
    · have h2 : p.endDate < now2 := lt_of_lt_of_le h1 h12
      simp [daysRemaining, h1, h2]
    · by_cases h2 : p.endDate < now2
      · rw [core now1 h1]
        have hz : daysRemaining p now2 = 0 := by simp [daysRemaining, h2]
        rw [hz]
        exact Int.natCast_nonneg _
      · rw [core now1 h1, core now2 h2]
        have hab : (p.endDate - now2).natAbs ≤ (p.endDate - now1).natAbs := by omega
        exact_mod_cast Nat.div_le_div_right (Nat.add_le_add_right hab _)

/-- Witness for C3 at a concrete unexpired policy and advancing clocks. -/
theorem daysRemaining_props_witness :
    (¬ (86400000 : Int) < 0) ∧
    ((daysRemaining ⟨true, 0, 86400000, []⟩ 0 - 1) * (msPerDay : Int) < 86400000 - 0 ∧
      (86400000 : Int) - 0 ≤ daysRemaining ⟨true, 0, 86400000, []⟩ 0 * (msPerDay : Int)) ∧
    daysRemaining ⟨true, 0, 86400000, []⟩ 10 ≤ daysRemaining ⟨true, 0, 86400000, []⟩ 0 :=
  ⟨by decide,
   (daysRemaining_props ⟨true, 0, 86400000, []⟩ 0 0 10).2.2.1 (by decide),
   (daysRemaining_props ⟨true, 0, 86400000, []⟩ 5 0 10).2.2.2 (by decide)⟩

/-- C10: an active policy with `startDate ≤ now` evaluated exactly at
`now = endDate` has status `Active`, 0 days remaining, and is not expiring
soon. -/
theorem active_at_endDate (p : InsurancePolicy) (now : Int)
    (hA : p.isActive = true) (hs : p.startDate ≤ now) (he : p.endDate = now) :
    status p now = "Active" ∧ daysRemaining p now = 0 ∧ isExpiringSoon p now = false := by
  have h1 : ¬ p.endDate < now := by omega
  have h2 : ¬ p.startDate > now := by omega
  have hd : daysRemaining p now = 0 := by
    simp only [daysRemaining, if_neg h1, he, sub_self, Int.natAbs_zero, Nat.zero_add, msPerDay]
    norm_num
  refine ⟨by simp [status, hA, h1, h2], hd, by simp [isExpiringSoon, hd]⟩

/-- Witness for C10 at a concrete policy whose end date is the evaluation
instant. -/
theorem active_at_endDate_witness :
    status ⟨true, 0, 100, []⟩ 100 = "Active" ∧
      daysRemaining ⟨true, 0, 100, []⟩ 100 = 0 ∧
      isExpiringSoon ⟨true, 0, 100, []⟩ 100 = false :=
  active_at_endDate ⟨true, 0, 100, []⟩ 100 rfl (by decide) rfl

/-! ## Membership theorems -/

/-- C4: when a record for `memberData.userId` already exists (active or not),
`addMember` updates that record's role and permissions in place, forces its
active flag to true, and leaves `dateJoined` (and everything else, including
the surrounding records) unchanged; calling `addMember` twice with identical
data equals calling it once; on a fresh organization it yields exactly one
active record for that user. -/
theorem addMember_spec (d : MemberData) (now now' : Int) :
    (∀ (b : Band) (l1 l2 : List Member) (m : Member),
        b.members = l1 ++ m :: l2 → (∀ x ∈ l1, x.userId ≠ d.userId) → m.userId = d.userId →
        (addMember b d now).members =
          l1 ++ { m with role := d.role.getD m.role,
                         permissions := d.permissions.getD m.permissions,
                         isActive := true } :: l2) ∧
    (∀ b : Band, addMember (addMember b d now) d now' = addMember b d now) ∧
    (∀ b : Band, (∀ x ∈ b.members, x.userId ≠ d.userId) →
        (addMember (addMember b d now) d now').members.countP
          (fun m => m.userId == d.userId && m.isActive) = 1) := by
  have hupd : ∀ (b : Band) (l1 l2 : List Member) (m : Member),
      b.members = l1 ++ m :: l2 → (∀ x ∈ l1, x.userId ≠ d.userId) → m.userId = d.userId →
      (addMember b d now).members = l1 ++ applyMemberData d m :: l2 := by
    intro b l1 l2 m hsplit hl1 hm
    have hany : b.members.any (fun x => x.userId == d.userId) = true := by
      rw [hsplit]
      simp [List.any_append, hm]
    rw [addMember, if_pos hany, hsplit]
    exact updateFirst_append _ _ _ _ _
      (fun x hx => by simp [hl1 x hx]) (by simp [hm])
  have hidem : ∀ b : Band, addMember (addMember b d now) d now' = addMember b d now := by
    intro b
    refine Band.eq_of_members _ _ (by rw [addMember_name, addMember_name]) ?_
    by_cases hany : b.members.any (fun x => x.userId == d.userId) = true
    · have hm1 : (addMember b d now).members = updateFirst (fun m => m.userId == d.userId) (applyMemberData d) b.members := by
        rw [addMember_members, if_pos hany]
      have hany2 : (addMember b d now).members.any (fun m => m.userId == d.userId) = true := by
        rw [hm1, updateFirst_any (fun m => m.userId == d.userId) (applyMemberData d) (fun m => m.userId == d.userId) (fun x => rfl)]
        exact hany
      rw [addMember_members (addMember b d now) d now', if_pos hany2, hm1,
        updateFirst_idem (fun m : Member => m.userId == d.userId) (applyMemberData d) (fun x => rfl) (applyMemberData_idem d)]
    · have hm1 : (addMember b d now).members = b.members ++ [castMember d now] := by
        rw [addMember_members, if_neg hany]
      have hall : ∀ x ∈ b.members, (x.userId == d.userId) = false := by
        intro x hx
        rcases Bool.eq_false_or_eq_true (x.userId == d.userId) with h | h
        · exact absurd (List.any_eq_true.mpr ⟨x, hx, h⟩) hany
        · exact h
      have hany2 : (addMember b d now).members.any (fun m => m.userId == d.userId) = true := by
        rw [hm1]
        simp [List.any_append, castMember]
      rw [addMember_members (addMember b d now) d now', if_pos hany2, hm1,
        updateFirst_append _ _ _ _ _ hall (by simp [castMember]),
        applyMemberData_castMember]
  have hcount : ∀ b : Band, (∀ x ∈ b.members, x.userId ≠ d.userId) →
      (addMember (addMember b d now) d now').members.countP
        (fun m => m.userId == d.userId && m.isActive) = 1 := by
    intro b hfresh
    rw [hidem b]
    have hany : ¬ b.members.any (fun x => x.userId == d.userId) = true := by
      simp only [List.any_eq_true, not_exists]
      intro x
      simp only [not_and, beq_iff_eq]
      exact fun hx => hfresh x hx
    rw [addMember_members, if_neg hany]
    simp only [List.countP_append, List.countP_cons, List.countP_nil]
    have h0 : b.members.countP (fun m => m.userId == d.userId && m.isActive) = 0 := by
      rw [List.countP_eq_zero]
      intro m hm
      simp [hfresh m hm]
    simp [h0, castMember]
  exact ⟨fun b l1 l2 m h1 h2 h3 => hupd b l1 l2 m h1 h2 h3, hidem, hcount⟩

/-- Witness for C4: reactivating the single existing (inactive) record of a
one-member organization updates it in place, keeping `dateJoined = 3`. -/
theorem addMember_spec_witness :
    (addMember ⟨"w", [⟨7, "drums", ["edit"], 3, false⟩]⟩ ⟨7, some "bass", some ["view"]⟩ 50).members
      = [⟨7, "bass", ["view"], 3, true⟩] :=
  (addMember_spec ⟨7, some "bass", some ["view"]⟩ 50 0).1
    ⟨"w", [⟨7, "drums", ["edit"], 3, false⟩]⟩ [] [] ⟨7, "drums", ["edit"], 3, false⟩
    rfl (by simp) rfl

/-- C5: evaluation at the failing input — adding a member with no existing
record and the permission set omitted appends a record whose permission set
is `[]`, not the `["view"]` that the schema's element-level `default`
declares and the spec states: Mongoose never applies a default written
inside a primitive-array element definition, so the array stays empty. -/
theorem addMember_omitted_permissions_empty :
    (addMember ⟨"w", []⟩ ⟨9, some "keys", none⟩ 11).members =
      [⟨9, "keys", [], 11, true⟩] := by
  simp [addMember, castMember]

/-- C6: `removeMember` soft-deactivates the user's active record in place and
leaves everything else untouched; when no active record exists it returns the
aggregate unchanged (not an error); it is idempotent; and it never shortens
the members list. -/
theorem removeMember_spec (u : Nat) :
    (∀ (b : Band) (l1 l2 : List Member) (m : Member),
        b.members = l1 ++ m :: l2 → (∀ x ∈ l1, x.userId ≠ u) → m.userId = u →
        m.isActive = true →
        (removeMember b u).members = l1 ++ { m with isActive := false } :: l2) ∧
    (∀ b : Band, (∀ m ∈ b.members, m.userId = u → m.isActive = false) →
        removeMember b u = b) ∧
    (∀ b : Band, removeMember (removeMember b u) u = removeMember b u) ∧
    (∀ b : Band, (removeMember b u).members.length = b.members.length) := by
  refine ⟨?_, ?_, ?_, ?_⟩
  · intro b l1 l2 m hsplit hl1 hm _hact
    rw [removeMember]
    show updateFirst _ _ b.members = _
    rw [hsplit]
    exact updateFirst_append _ _ _ _ _ (fun x hx => by simp [hl1 x hx]) (by simp [hm])
  · intro b hno
    refine Band.eq_of_members _ _ rfl ?_
    show updateFirst _ _ b.members = b.members
    refine updateFirst_eq_self _ _ _ (fun x hx hp => ?_)
    have hinactive : x.isActive = false := hno x hx (by simpa using hp)
    cases x
    simp_all
  · intro b
    refine Band.eq_of_members _ _ rfl ?_
    show updateFirst _ _ (updateFirst _ _ b.members) = updateFirst _ _ b.members
    exact updateFirst_idem (fun m : Member => m.userId == u)
      (fun m => { m with isActive := false }) (fun x => rfl) (fun x => rfl) b.members
  · intro b
    exact updateFirst_length _ _ _

/-- Witness for C6: deactivating the single active record of a one-member
organization. -/
theorem removeMember_spec_witness :
    (removeMember ⟨"w", [⟨7, "drums", ["edit"], 3, true⟩]⟩ 7).members
      = [⟨7, "drums", ["edit"], 3, false⟩] :=
  (removeMember_spec 7).1 ⟨"w", [⟨7, "drums", ["edit"], 3, true⟩]⟩ [] []
    ⟨7, "drums", ["edit"], 3, true⟩ rfl (by simp) rfl rfl

/-- C7: `hasPermission` is false when no active record exists for the user;
when the user's active record holds the `admin` tag it is true for every
requested tag; otherwise it is true exactly when the record's permission set
contains the requested tag. -/
theorem hasPermission_spec (u : Nat) (perm : String) :
    (∀ b : Band, (∀ m ∈ b.members, m.userId = u → m.isActive = false) →
        hasPermission b u perm = false) ∧
    (∀ (b : Band) (l1 l2 : List Member) (m : Member),
        b.members = l1 ++ m :: l2 →
        (∀ x ∈ l1, ¬(x.userId = u ∧ x.isActive = true)) →
        m.userId = u → m.isActive = true →
        ("admin" ∈ m.permissions → hasPermission b u perm = true) ∧
        ("admin" ∉ m.permissions →
          (hasPermission b u perm = true ↔ perm ∈ m.permissions))) := by
  constructor
  · intro b hno
    have hfind : b.members.find? (fun m => m.userId == u && m.isActive) = none := by
      rw [List.find?_eq_none]
      intro m hm
      simp only [Bool.and_eq_true, beq_iff_eq, not_and]
      intro hu
      simp [hno m hm hu]
    rw [hasPermission, hfind]
  · intro b l1 l2 m hsplit hl1 hm hact
    have hfind : b.members.find? (fun x => x.userId == u && x.isActive) = some m := by
      rw [hsplit]
      refine find?_first _ _ _ _ (fun x hx => ?_) (by simp [hm, hact])
      have := hl1 x hx
      simp only [Bool.and_eq_false_iff]
      by_cases hxu : x.userId = u
      · right
        rcases Bool.eq_false_or_eq_true x.isActive with ha | ha
        · exact absurd ⟨hxu, ha⟩ this
        · exact ha
      · left
        simp [hxu]
    constructor
    · intro hadmin
      rw [hasPermission, hfind]
      simp [List.contains, hadmin]
    · intro hadmin
      rw [hasPermission, hfind]
      simp [List.contains, hadmin]

/-- Witness for C7: an admin member is granted a tag that is not in their
permission list. -/
theorem hasPermission_spec_witness :
    hasPermission ⟨"w", [⟨7, "g", ["admin"], 0, true⟩]⟩ 7 "inventory" = true :=
  ((hasPermission_spec 7 "inventory").2 ⟨"w", [⟨7, "g", ["admin"], 0, true⟩]⟩ [] []
    ⟨7, "g", ["admin"], 0, true⟩ rfl (by simp) rfl rfl).1 (by simp)

/-- Helper for C9: reachable bands hold at most one record (active or not)
per user reference, because `addMember` upserts by `userId` and
`removeMember` only toggles a flag. -/
theorem reachable_countP_le_one (b : Band) (hb : Reachable b) (u : Nat) :
    b.members.countP (fun m => m.userId == u) ≤ 1 := by
  induction hb with
  | init b h => simp [h]
  | add b d now hb ih =>
    by_cases hany : b.members.any (fun m => m.userId == d.userId) = true
    · rw [addMember_members, if_pos hany,
        countP_updateFirst _ (applyMemberData d) (fun m => m.userId == u) (fun x => rfl)]
      exact ih
    · rw [addMember_members, if_neg hany, List.countP_append]
      by_cases hu : d.userId = u
      · have h0 : b.members.countP (fun m => m.userId == u) = 0 := by
          rw [List.countP_eq_zero]
          intro m hm
          have : ¬ (m.userId == d.userId) = true := fun hc =>
            hany (List.any_eq_true.mpr ⟨m, hm, hc⟩)
          simp_all
        have h1 : ([castMember d now].countP fun m => m.userId == u) ≤ 1 := by
          simp [List.countP_cons, castMember, hu]
        omega
      · have h1 : ([castMember d now].countP fun m => m.userId == u) = 0 := by
          simp [List.countP_cons, castMember, hu]
        omega
  | remove b u' hb ih =>
    have hm : (removeMember b u').members = updateFirst (fun m => m.userId == u') (fun m => { m with isActive := false }) b.members := rfl
    rw [hm, countP_updateFirst (fun m : Member => m.userId == u') (fun m : Member => { m with isActive := false }) (fun m => m.userId == u) (fun x => rfl)]
    exact ih

/-- C9: in every organization reachable from an empty member list by
`addMember` / `removeMember`, each user reference has at most one active
member record. -/
theorem reachable_at_most_one_active (b : Band) (hb : Reachable b) (u : Nat) :
    b.members.countP (fun m => m.userId == u && m.isActive) ≤ 1 := by
  have hmono : b.members.countP (fun m => m.userId == u && m.isActive)
      ≤ b.members.countP (fun m => m.userId == u) := by
    refine List.countP_mono_left (fun x _ hx => ?_)
    exact (Bool.and_eq_true _ _).mp hx |>.1
  exact le_trans hmono (reachable_countP_le_one b hb u)

/-- Witness for C9 on a band built by one `addMember` from a fresh
aggregate. -/
theorem reachable_at_most_one_active_witness :
    (addMember ⟨"w", []⟩ ⟨7, some "g", none⟩ 0).members.countP
      (fun m => m.userId == 7 && m.isActive) ≤ 1 :=
  reachable_at_most_one_active _
    (Reachable.add ⟨"w", []⟩ ⟨7, some "g", none⟩ 0 (Reachable.init ⟨"w", []⟩ rfl)) 7

/-- Helper for C8: the fold of `getTotalCoverageValue` is a sum. -/
theorem foldl_add_getD (c : Int) (l : List Equipment) :
    l.foldl (fun total item => total + item.currentValue.getD 0) c
      = c + (l.map (fun item => item.currentValue.getD 0)).sum := by
  induction l generalizing c with
  | nil => simp
  | cons x xs ih => simp [ih, add_assoc]

/-- C8: `getTotalCoverageValue` sums each resolved item's `currentValue` over
`coveredItems`, treats a resolved item with unset `currentValue` as 0,
excludes (rather than errors on) entries that fail to resolve, and yields 500
on a policy with one resolvable item worth 500 plus one unresolvable
reference. -/
theorem totalCoverageValue_spec :
    (∀ (p : InsurancePolicy) (res : Nat → Option Equipment),
        getTotalCoverageValue p res =
          ((p.coveredItems.filterMap res).map (fun item => item.currentValue.getD 0)).sum) ∧
    (∀ (p : InsurancePolicy) (res : Nat → Option Equipment) (i : Nat),
        res i = none →
        getTotalCoverageValue { p with coveredItems := i :: p.coveredItems } res =
          getTotalCoverageValue p res) ∧
    (∀ (p : InsurancePolicy) (res : Nat → Option Equipment) (i : Nat) (e : Equipment),
        res i = some e → e.currentValue = none →
        getTotalCoverageValue { p with coveredItems := i :: p.coveredItems } res =
          getTotalCoverageValue p res) ∧
    (∀ (p : InsurancePolicy) (res : Nat → Option Equipment) (i : Nat) (e : Equipment) (v : Int),
        res i = some e → e.currentValue = some v →
        getTotalCoverageValue { p with coveredItems := i :: p.coveredItems } res =
          v + getTotalCoverageValue p res) ∧
    (∀ (res : Nat → Option Equipment) (a c : Nat),
        res a = some ⟨some 500⟩ → res c = none →
        getTotalCoverageValue ⟨true, 0, 0, [a, c]⟩ res = 500) := by
  have hsum : ∀ (p : InsurancePolicy) (res : Nat → Option Equipment),
      getTotalCoverageValue p res =
        ((p.coveredItems.filterMap res).map (fun item => item.currentValue.getD 0)).sum := by
    intro p res
    rw [getTotalCoverageValue, foldl_add_getD]
    simp
  refine ⟨hsum, ?_, ?_, ?_, ?_⟩
  · intro p res i hres
    rw [hsum, hsum]
    simp [List.filterMap_cons, hres]
  · intro p res i e hres hcv
    rw [hsum, hsum]
    simp [List.filterMap_cons, hres, hcv]
  · intro p res i e v hres hcv
    rw [hsum, hsum]
    simp [List.filterMap_cons, hres, hcv]
  · intro res a c hres hnone
    rw [hsum]
    simp [List.filterMap_cons, hres, hnone]

/-- Witness for C8 on a concrete resolver knowing item 1 (value 500) and
nothing else. -/
theorem totalCoverageValue_spec_witness :
    getTotalCoverageValue ⟨true, 0, 0, [1, 2]⟩
      (fun i => if i == 1 then some ⟨some 500⟩ else none) = 500 :=
  totalCoverageValue_spec.2.2.2.2 (fun i => if i == 1 then some ⟨some 500⟩ else none)
    1 2 rfl rfl

end GearTracker
